import Mathlib

/-!
Verification of the AutoEDA Dataset Profiling & Cleaning Pipeline.

The repository ships a React front end (upload form, result renderer) and a
README describing a Python/Flask back end exposing an `upload_csv` endpoint.
The back end that implements the profiling pipeline (Table Loader, Schema
Inferrer, Cleaner, Summarizer, Profile Reporter) is not part of the checked-in
sources, so the pipeline below is modelled from the specification; the
`ScrollableCard` result renderer is embedded directly from
`src/frontend/src/components/Auth.jsx`.

Numeric cell values are modelled with exact rationals (ℚ); the reported
standard deviation is irrational in general, so the summary stores the sample
variance (the square of the reported standard deviation) and theorems relate
it to the real square root.
-/

/-! ## String utilities (character-list based, kernel-reducible) -/

/-- Splits a character list at every occurrence of `sep`; the accumulator holds
the current (reversed) field. -/
def splitCharsAux (sep : Char) : List Char → List Char → List (List Char)
  | [], acc => [acc.reverse]
  | c :: cs, acc =>
      if c = sep then acc.reverse :: splitCharsAux sep cs []
      else splitCharsAux sep cs (c :: acc)

/-- Splits a string at every occurrence of the separator character. -/
def splitOnChar (sep : Char) (s : String) : List String :=
  (splitCharsAux sep s.data []).map String.mk

/-- Removes leading and trailing whitespace characters. -/
def trimChars (cs : List Char) : List Char :=
  ((cs.dropWhile Char.isWhitespace).reverse.dropWhile Char.isWhitespace).reverse

/-- Removes leading and trailing whitespace from a string. -/
def strTrim (s : String) : String := String.mk (trimChars s.data)

/-- Lowercases an ASCII letter, leaving every other character unchanged. -/
def lowerChar (c : Char) : Char :=
  if 'A' ≤ c ∧ c ≤ 'Z' then Char.ofNat (c.toNat + 32) else c

/-- ASCII lowercasing of a string. -/
def strLower (s : String) : String := String.mk (s.data.map lowerChar)

/-! ## Locale-invariant numeric parsing -/

/-- Whether every character in the list is a decimal digit. -/
def allDigits (cs : List Char) : Bool := cs.all Char.isDigit

/-- Value of a decimal digit string (most significant first). -/
def digitsVal (cs : List Char) : Nat :=
  cs.foldl (fun n c => n * 10 + (c.toNat - 48)) 0

/-- Modelled from the spec: locale-invariant unsigned decimal literal —
digits with at most one decimal point and at least one digit overall. -/
def parseUnsigned (cs : List Char) : Option ℚ :=
  match cs.splitOn '.' with
  | [ip] =>
      if ip ≠ [] ∧ allDigits ip then some (digitsVal ip) else none
  | [ip, fp] =>
      if (ip ≠ [] ∨ fp ≠ []) ∧ allDigits ip ∧ allDigits fp then
        some ((digitsVal ip : ℚ) + (digitsVal fp : ℚ) / (10 : ℚ) ^ fp.length)
      else none
  | _ => none

/-- Modelled from the spec: numeric parse of a cell — optional sign followed by
an unsigned integer or floating-point literal with a locale-invariant decimal
point (§4.2). The back-end parser is absent from the sources. -/
def parseDecimal (s : String) : Option ℚ :=
  match s.data with
  | [] => none
  | '-' :: rest => (parseUnsigned rest).map (fun q => -q)
  | '+' :: rest => parseUnsigned rest
  | cs => parseUnsigned cs

/-! ## Data model -/

/-- Modelled from the spec: inferred column kind (§3, ColumnSchema). -/
inductive ColumnKind
  | numerical
  | categorical
  | boolean
  | datetime
deriving DecidableEq, Repr

/-- Modelled from the spec: a column schema — name, inferred kind, and the
inference confidence (fraction of non-null values matching the kind). -/
structure ColumnSchema where
  name : String
  kind : ColumnKind
  confidence : ℚ
deriving DecidableEq, Repr

/-- Default schema used for out-of-range lookups. -/
def defaultSchema : ColumnSchema := ⟨"", ColumnKind.categorical, 0⟩

/-- Modelled from the spec: an in-memory table — ordered header names plus
rows of raw text cells (§3, Table). -/
structure Table where
  header : List String
  rows : List (List String)
deriving DecidableEq, Repr

/-- Modelled from the spec: typed cell value produced by the Cleaner (§9's
closed set of typed variants, restricted to what the pipeline produces:
numbers for numerical columns, raw text for the other kinds). -/
inductive Value
  | num (q : ℚ)
  | str (s : String)
deriving DecidableEq, Repr

/-- Modelled from the spec: error taxonomy of the Table Loader (§7). -/
inductive ParseErrorKind
  | EmptyInput
  | MalformedRow
  | UnsupportedEncoding
deriving DecidableEq, Repr

/-- Modelled from the spec: a loader error — kind plus the offending row index
for `MalformedRow` (§4.1, §7). -/
structure ParseError where
  kind : ParseErrorKind
  rowIndex : Option Nat
deriving DecidableEq, Repr

deriving instance DecidableEq for Except

/-! ## Table Loader (§4.1) -/

/-- Splits one CSV line into its comma-separated fields. -/
def splitLine (s : String) : List String := splitOnChar ',' s

/-- Lines of the raw input text, blank lines dropped. -/
def csvLines (input : String) : List String :=
  (splitOnChar '\x0a' input).filter (fun l => strTrim l ≠ "")

/-- Index of the first row whose field count differs from the header's field
count `n`, if any. -/
def firstBadRow (n : Nat) : List (List String) → Option Nat
  | [] => none
  | r :: rs =>
      if r.length ≠ n then some 0 else (firstBadRow n rs).map (· + 1)

/-- Modelled from the spec: the Table Loader (§4.1) — the first line is the
header; an empty or header-only file is `EmptyInput`; a data row whose field
count differs from the header's is `MalformedRow` carrying the row index, and
the whole load fails with no partial table. -/
def loadTable (input : String) : Except ParseError Table :=
  match csvLines input with
  | [] => Except.error ⟨ParseErrorKind.EmptyInput, none⟩
  | headerLine :: dataLines =>
      let hdr := splitLine headerLine
      if dataLines.isEmpty then Except.error ⟨ParseErrorKind.EmptyInput, none⟩
      else
        let rows := dataLines.map splitLine
        match firstBadRow hdr.length rows with
        | some i => Except.error ⟨ParseErrorKind.MalformedRow, some i⟩
        | none => Except.ok ⟨hdr, rows⟩

/-! ## Schema Inferrer (§4.2) -/

/-- Raw cells of column `j` (missing cells read as empty text). -/
def colCells (t : Table) (j : Nat) : List String :=
  t.rows.map (fun r => r.getD j "")

/-- Non-empty (not whitespace-only) values of a column. -/
def nonEmptyVals (values : List String) : List String :=
  values.filter (fun s => strTrim s ≠ "")

/-- Modelled from the spec: boolean token test — membership of the lowercased
trimmed value in `{true,false,yes,no,0,1}` (§4.2). -/
def isBoolToken (s : String) : Bool :=
  ["true", "false", "yes", "no", "0", "1"].contains (strLower (strTrim s))

/-- Shape match of a character list against a date pattern where `none` stands
for one decimal digit and `some c` for the literal character `c`. -/
def matchShape : List (Option Char) → List Char → Bool
  | [], [] => true
  | none :: ps, c :: cs => c.isDigit && matchShape ps cs
  | some p :: ps, c :: cs => c = p && matchShape ps cs
  | _, _ => false

/-- Modelled from the spec: ISO `YYYY-MM-DD` date shape. -/
def matchISO (s : String) : Bool :=
  matchShape
    [none, none, none, none, some '-', none, none, some '-', none, none]
    (strTrim s).data

/-- Modelled from the spec: `MM/DD/YYYY` date shape. -/
def matchMDY (s : String) : Bool :=
  matchShape
    [none, none, some '/', none, none, some '/', none, none, none, none]
    (strTrim s).data

/-- Modelled from the spec: `DD-MM-YYYY` date shape. -/
def matchDMY (s : String) : Bool :=
  matchShape
    [none, none, some '-', none, none, some '-', none, none, none, none]
    (strTrim s).data

/-- Count of values in `vs` satisfying the boolean test `p`. -/
def countP (p : String → Bool) (vs : List String) : Nat := (vs.filter p).length

/-- Whether a cell's trimmed text parses as a number. -/
def isNumericCell (s : String) : Bool := (parseDecimal (strTrim s)).isSome

/-- Modelled from the spec: per-column classification (§4.2) over the non-empty
values — numerical if at least 95% parse as numbers, else boolean if all values
are boolean tokens, else datetime if at least 90% match one of the three fixed
date shapes, else categorical; a column with no non-empty values is categorical
with confidence 0. Returns the kind and the confidence fraction. -/
def inferColumn (values : List String) : ColumnKind × ℚ :=
  let ne := nonEmptyVals values
  let n := ne.length
  if n = 0 then (ColumnKind.categorical, 0)
  else
    let numCount := countP isNumericCell ne
    if 20 * numCount ≥ 19 * n then (ColumnKind.numerical, (numCount : ℚ) / n)
    else if ne.all isBoolToken then (ColumnKind.boolean, 1)
    else
      let best := max (countP matchISO ne) (max (countP matchMDY ne) (countP matchDMY ne))
      if 10 * best ≥ 9 * n then (ColumnKind.datetime, (best : ℚ) / n)
      else (ColumnKind.categorical, 1)

/-- Modelled from the spec: the Schema Inferrer (§4.2) — one schema per header
column, in header order. -/
def inferSchemas (t : Table) : List ColumnSchema :=
  (List.range t.header.length).map (fun j =>
    let r := inferColumn (colCells t j)
    ⟨t.header.getD j "", r.1, r.2⟩)

/-- Kind recorded for column `j` in a schema list. -/
def kindAt (schemas : List ColumnSchema) (j : Nat) : ColumnKind :=
  (schemas.getD j defaultSchema).kind

/-! ## Cleaner (§4.3) -/

/-- Modelled from the spec: the null predicate on raw cells (§4.3) — empty,
whitespace-only, or (for numerical columns) failing the numeric parse. -/
def isNullCell (kind : ColumnKind) (s : String) : Bool :=
  strTrim s = "" || (kind = ColumnKind.numerical && (parseDecimal (strTrim s)).isNone)

/-- Inserts a rational into a sorted list, keeping it sorted. -/
def insertSorted (x : ℚ) : List ℚ → List ℚ
  | [] => [x]
  | y :: ys => if x ≤ y then x :: y :: ys else y :: insertSorted x ys

/-- Insertion sort on rationals. -/
def sortQ (xs : List ℚ) : List ℚ := xs.foldr insertSorted []

/-- Modelled from the spec: the median — middle element of the sorted values,
or the average of the two middle elements for an even count; 0 on an empty
list (that fallback is never used by the Cleaner, which imputes 0 directly for
entirely-null numerical columns). -/
def medianQ (xs : List ℚ) : ℚ :=
  let s := sortQ xs
  let n := s.length
  if n = 0 then 0
  else if n % 2 = 1 then s.getD (n / 2) 0
  else (s.getD (n / 2 - 1) 0 + s.getD (n / 2) 0) / 2

/-- First-occurrence deduplication: keeps an element only if it is neither in
`seen` nor appeared earlier in the list. -/
def dedupFirstAux (seen : List α) [DecidableEq α] : List α → List α
  | [] => []
  | x :: xs =>
      if x ∈ seen then dedupFirstAux seen xs
      else x :: dedupFirstAux (x :: seen) xs

/-- The distinct elements of a list in order of first occurrence. -/
def dedupFirst [DecidableEq α] (xs : List α) : List α := dedupFirstAux [] xs

/-- Candidate with the highest count in `xs` among `b :: cs`; on ties the
earlier candidate is kept (replacement only on strictly greater count). -/
def bestOf [DecidableEq α] (xs : List α) (b : α) : List α → α
  | [] => b
  | c :: cs => if xs.count b < xs.count c then bestOf xs c cs else bestOf xs b cs

/-- Modelled from the spec: the mode — most frequent value, ties broken by
first-encountered order (§4.4); `none` on an empty list. -/
def modeFirst [DecidableEq α] (xs : List α) : Option α :=
  match dedupFirst xs with
  | [] => none
  | c :: cs => some (bestOf xs c cs)

/-- Non-null parsed numeric values of a numerical column's raw cells. -/
def numericValues (cells : List String) : List ℚ :=
  (cells.filter (fun s => ¬ isNullCell ColumnKind.numerical s)).filterMap
    (fun s => parseDecimal (strTrim s))

/-- Modelled from the spec: the per-column imputation replacement (§4.3) —
median of the non-null values for a numerical column (0 if entirely null);
mode of the non-null values for the other kinds (literal `"Unknown"` if
entirely null). -/
def columnReplacement (kind : ColumnKind) (cells : List String) : Value :=
  match kind with
  | ColumnKind.numerical =>
      let vals := numericValues cells
      if vals.isEmpty then Value.num 0 else Value.num (medianQ vals)
  | _ =>
      let ne := cells.filter (fun s => ¬ isNullCell kind s)
      match modeFirst ne with
      | some v => Value.str v
      | none => Value.str "Unknown"

/-- Modelled from the spec: imputation of one cell (§4.3) — a null cell becomes
the column's replacement value; a non-null numerical cell becomes its parsed
number; a non-null cell of any other kind keeps its raw text. -/
def imputeCell (kind : ColumnKind) (repl : Value) (s : String) : Value :=
  if isNullCell kind s then repl
  else
    match kind with
    | ColumnKind.numerical => Value.num ((parseDecimal (strTrim s)).getD 0)
    | _ => Value.str s

/-- Per-column kind and replacement value, in header order. -/
def columnInfo (schemas : List ColumnSchema) (t : Table) : List (ColumnKind × Value) :=
  (List.range t.header.length).map (fun j =>
    (kindAt schemas j, columnReplacement (kindAt schemas j) (colCells t j)))

/-- Imputation of one row against the per-column info. -/
def imputeRow (info : List (ColumnKind × Value)) (r : List String) : List Value :=
  (List.range info.length).map (fun j =>
    let p := info.getD j (ColumnKind.categorical, Value.str "")
    imputeCell p.1 p.2 (r.getD j ""))

/-- Modelled from the spec: the imputed (not yet deduplicated) rows of a table. -/
def imputedRows (schemas : List ColumnSchema) (t : Table) : List (List Value) :=
  t.rows.map (imputeRow (columnInfo schemas t))

/-- Modelled from the spec: the Cleaner's change log (§3, CleaningReport) —
per-column null counts and the number of duplicate rows removed. -/
structure CleaningReport where
  nullsImputed : List Nat
  duplicatesRemoved : Nat
deriving DecidableEq, Repr

/-- Modelled from the spec: the Cleaner (§4.3) — impute nulls first, then drop
every row equal to an earlier row (keeping first occurrences), and record the
per-column null counts and the duplicate count. Total: never fails on any
table. -/
def cleanTable (schemas : List ColumnSchema) (t : Table) : List (List Value) × CleaningReport :=
  let imputed := imputedRows schemas t
  let deduped := dedupFirst imputed
  (deduped,
   ⟨(List.range t.header.length).map (fun j =>
       ((colCells t j).filter (isNullCell (kindAt schemas j))).length),
    imputed.length - deduped.length⟩)

/-- Modelled from the spec: the null predicate carried over to typed cleaned
cells — a number never satisfies it; a text cell satisfies it exactly when it
is empty or whitespace-only. -/
def valueIsNull : Value → Bool
  | Value.num _ => false
  | Value.str s => strTrim s = ""

/-! ## Summarizer (§4.4) -/

/-- Mean of a list of rationals (0 on the empty list). -/
def meanQ (xs : List ℚ) : ℚ := xs.sum / xs.length

/-- Modelled from the spec: unbiased sample variance with N−1 denominator —
the square of the reported standard deviation; 0 when N ≤ 1 (§4.4). -/
def sampleVarQ (xs : List ℚ) : ℚ :=
  if xs.length ≤ 1 then 0
  else ((xs.map (fun x => (x - meanQ xs) ^ 2)).sum) / ((xs.length : ℚ) - 1)

/-- Modelled from the spec: percentile by linear interpolation between the two
nearest ranks of the sorted values (§4.4); 0 on an empty list. -/
def percentileQ (xs : List ℚ) (p : ℚ) : ℚ :=
  let s := sortQ xs
  let n := s.length
  if n = 0 then 0
  else
    let rank : ℚ := p * ((n : ℚ) - 1)
    let lo : Nat := (Int.floor rank).toNat
    let hi : Nat := (Int.ceil rank).toNat
    let frac : ℚ := rank - (lo : ℚ)
    s.getD lo 0 + frac * (s.getD hi 0 - s.getD lo 0)

/-- Minimum of a list of rationals (0 on the empty list). -/
def minQ (xs : List ℚ) : ℚ :=
  match xs with
  | [] => 0
  | x :: rest => rest.foldl min x

/-- Maximum of a list of rationals (0 on the empty list). -/
def maxQ (xs : List ℚ) : ℚ :=
  match xs with
  | [] => 0
  | x :: rest => rest.foldl max x

/-- Modelled from the spec: the numerical column summary (§3) — count, null
count, mean, variance (square of the reported N−1 standard deviation), min,
25/50/75th percentiles, max. -/
structure NumericalSummary where
  count : Nat
  nullCount : Nat
  mean : ℚ
  stdSq : ℚ
  minVal : ℚ
  p25 : ℚ
  median : ℚ
  p75 : ℚ
  maxVal : ℚ
deriving DecidableEq, Repr

/-- Modelled from the spec: the categorical/boolean/datetime column summary
(§3) — count, null count, distinct count, most frequent value and its
frequency. -/
structure CategoricalSummary where
  count : Nat
  nullCount : Nat
  distinct : Nat
  topValue : Value
  topFreq : Nat
deriving DecidableEq, Repr

/-- Numerical summary of a column's numeric values. -/
def numSummaryOf (nullCount : Nat) (vs : List ℚ) : NumericalSummary :=
  ⟨vs.length, nullCount, meanQ vs, sampleVarQ vs, minQ vs,
   percentileQ vs (1 / 4), percentileQ vs (1 / 2), percentileQ vs (3 / 4), maxQ vs⟩

/-- Categorical summary of a column's cleaned cell values; ties for the most
frequent value are broken by first-encountered order. -/
def catSummaryOf (nullCount : Nat) (vs : List Value) : CategoricalSummary :=
  let top := (modeFirst vs).getD (Value.str "")
  ⟨vs.length, nullCount, (dedupFirst vs).length, top, vs.count top⟩

/-- Modelled from the spec: the two named summary groups of the report (§3,
§4.4) — association lists from column name to summary. -/
structure SummaryGroups where
  categoricalColumns : List (String × CategoricalSummary)
  numericalColumns : List (String × NumericalSummary)
deriving DecidableEq, Repr

/-- Cleaned cells of column `j`. -/
def cleanedCol (cleaned : List (List Value)) (j : Nat) : List Value :=
  cleaned.map (fun r => r.getD j (Value.str ""))

/-- Numeric values of a cleaned column. -/
def cleanedColQ (cleaned : List (List Value)) (j : Nat) : List ℚ :=
  (cleanedCol cleaned j).filterMap (fun v =>
    match v with
    | Value.num q => some q
    | Value.str _ => none)

/-- Modelled from the spec: the Summarizer (§4.4) — one summary per header
column computed on the cleaned table, numerical columns in the
`"Numerical Columns"` group and every other kind (categorical, boolean,
datetime) in the `"Categorical Columns"` group, preserving header order within
each group. The per-column null counts come from the Cleaner's report. -/
def summarize (schemas : List ColumnSchema) (header : List String)
    (cleaned : List (List Value)) (nullCounts : List Nat) : SummaryGroups :=
  let idx := List.range header.length
  ⟨(idx.filter (fun j => kindAt schemas j ≠ ColumnKind.numerical)).map (fun j =>
      (header.getD j "", catSummaryOf (nullCounts.getD j 0) (cleanedCol cleaned j))),
   (idx.filter (fun j => kindAt schemas j = ColumnKind.numerical)).map (fun j =>
      (header.getD j "", numSummaryOf (nullCounts.getD j 0) (cleanedColQ cleaned j)))⟩

/-! ## Profile Reporter and pipeline (§4.5) -/

/-- Modelled from the spec: the profile report (§3, §6) — filename, status,
the summary groups on success, the loader error on failure. -/
structure ProfileReport where
  filename : String
  status : String
  summary : Option SummaryGroups
  errorInfo : Option ParseError
deriving DecidableEq, Repr

/-- Modelled from the spec: the whole pipeline (§2, §4.5) — Loader, Schema
Inferrer, Cleaner, Summarizer, Reporter in sequence; on a loader error the
report carries status `"error"`, no summary and the error; on success status
`"success"` and the summary groups. -/
def profilePipeline (filename : String) (input : String) : ProfileReport :=
  match loadTable input with
  | Except.error e => ⟨filename, "error", none, some e⟩
  | Except.ok t =>
      let schemas := inferSchemas t
      let result := cleanTable schemas t
      ⟨filename, "success",
       some (summarize schemas t.header result.1 result.2.nullsImputed), none⟩

/-! ## ScrollableCard result renderer (from src/frontend/src/components/Auth.jsx) -/

/-- The summary object as consumed by `ScrollableCard`: the two groups are
rendered through `JSON.stringify`, modelled here as their already-stringified
text. -/
structure JsSummary where
  categoricalColumns : String
  numericalColumns : String
deriving DecidableEq, Repr

/-- The report object `ScrollableCard` destructures: `filename`, `status` and
an optional `summary`. -/
structure JsReport where
  filename : String
  status : String
  summary : Option JsSummary
deriving DecidableEq, Repr

/-- Shallow embedding of `ScrollableCard` (Auth.jsx): text fragments of the
rendered output in document order. A null/undefined `data` renders only the
fallback text; otherwise the fixed heading, the filename, the status and — when
a summary object is present — the two group headings with their stringified
contents are rendered. No branch inspects `status`. -/
def scrollableCard : Option JsReport → List String
  | none => ["No summary available yet."]
  | some d =>
      ["File uploaded successfully", "Filename:", d.filename, "Status:", d.status,
       "Summary"] ++
      (match d.summary with
       | some s =>
           ["Categorical Columns", s.categoricalColumns,
            "Numerical Columns", s.numericalColumns]
       | none => [])

/-! ## Helper lemmas -/

theorem getD_map_of_lt (f : α → β) (l : List α) (j : Nat) (h : j < l.length) (d : β) (d' : α) :
    (l.map f).getD j d = f (l.getD j d') := by
  rw [List.getD_eq_getElem?_getD, List.getD_eq_getElem?_getD, List.getElem?_map,
    List.getElem?_eq_getElem h]
  simp

theorem getD_map_range (f : Nat → β) (n j : Nat) (h : j < n) (d : β) :
    ((List.range n).map f).getD j d = f j := by
  rw [List.getD_eq_getElem?_getD, List.getElem?_map, List.getElem?_range h]
  simp

theorem map_getD_range (l : List α) (d : α) :
    (List.range l.length).map (fun j => l.getD j d) = l := by
  induction l with
  | nil => rfl
  | cons a l ih =>
      rw [List.length_cons, List.range_succ_eq_map, List.map_cons, List.map_map]
      simp only [Function.comp_def, List.getD_cons_succ, List.getD_cons_zero]
      rw [ih]

theorem mem_dedupFirstAux [DecidableEq α] (seen : List α) (xs : List α) (a : α) :
    a ∈ dedupFirstAux seen xs ↔ a ∈ xs ∧ a ∉ seen := by
  induction xs generalizing seen with
  | nil => simp [dedupFirstAux]
  | cons x xs ih =>
      by_cases hx : x ∈ seen
      · rw [dedupFirstAux, if_pos hx, ih]
        constructor
        · rintro ⟨h1, h2⟩
          exact ⟨List.mem_cons_of_mem _ h1, h2⟩
        · rintro ⟨h1, h2⟩
          rcases List.mem_cons.mp h1 with rfl | h
          · exact absurd hx h2
          · exact ⟨h, h2⟩
      · rw [dedupFirstAux, if_neg hx]
        constructor
        · intro hmem
          rcases List.mem_cons.mp hmem with rfl | hmem
          · exact ⟨List.mem_cons_self _ _, hx⟩
          · obtain ⟨h1, h2⟩ := (ih _).mp hmem
            refine ⟨List.mem_cons_of_mem _ h1, fun hs => h2 (List.mem_cons_of_mem _ hs)⟩
        · rintro ⟨h1, h2⟩
          rcases List.mem_cons.mp h1 with rfl | h
          · exact List.mem_cons_self _ _
          · by_cases hax : a = x
            · exact hax ▸ List.mem_cons_self _ _
            · exact List.mem_cons_of_mem _ ((ih _).mpr
                ⟨h, fun hs => (List.mem_cons.mp hs).elim hax h2⟩)

theorem mem_dedupFirst [DecidableEq α] (xs : List α) (a : α) :
    a ∈ dedupFirst xs ↔ a ∈ xs := by
  rw [dedupFirst, mem_dedupFirstAux]
  simp

theorem nodup_dedupFirstAux [DecidableEq α] (seen : List α) (xs : List α) :
    (dedupFirstAux seen xs).Nodup := by
  induction xs generalizing seen with
  | nil => simp [dedupFirstAux]
  | cons x xs ih =>
      by_cases hx : x ∈ seen
      · rw [dedupFirstAux, if_pos hx]
        exact ih seen
      · rw [dedupFirstAux, if_neg hx]
        refine List.nodup_cons.mpr ⟨fun hmem => ?_, ih _⟩
        exact ((mem_dedupFirstAux _ _ _).mp hmem).2 (List.mem_cons_self x seen)

theorem nodup_dedupFirst [DecidableEq α] (xs : List α) : (dedupFirst xs).Nodup :=
  nodup_dedupFirstAux [] xs

theorem sublist_dedupFirstAux [DecidableEq α] (seen : List α) (xs : List α) :
    (dedupFirstAux seen xs).Sublist xs := by
  induction xs generalizing seen with
  | nil => simp [dedupFirstAux]
  | cons x xs ih =>
      by_cases hx : x ∈ seen
      · rw [dedupFirstAux, if_pos hx]
        exact (ih seen).trans (List.sublist_cons_self x xs)
      · rw [dedupFirstAux, if_neg hx]
        exact (ih _).cons₂ x

theorem sublist_dedupFirst [DecidableEq α] (xs : List α) : (dedupFirst xs).Sublist xs :=
  sublist_dedupFirstAux [] xs

theorem pairwise_idxOf_dedupFirstAux [DecidableEq α] (seen : List α) (xs : List α) :
    (dedupFirstAux seen xs).Pairwise (fun u v => xs.indexOf u < xs.indexOf v) := by
  induction xs generalizing seen with
  | nil => simp [dedupFirstAux]
  | cons x xs ih =>
      by_cases hx : x ∈ seen
      · rw [dedupFirstAux, if_pos hx]
        refine (ih seen).imp_of_mem ?_
        intro u v hu hv huv
        have hune : u ≠ x := fun h => ((mem_dedupFirstAux _ _ _).mp hu).2 (h ▸ hx)
        have hvne : v ≠ x := fun h => ((mem_dedupFirstAux _ _ _).mp hv).2 (h ▸ hx)
        rw [List.indexOf_cons_ne _ (Ne.symm hune), List.indexOf_cons_ne _ (Ne.symm hvne)]
        exact Nat.succ_lt_succ huv
      · rw [dedupFirstAux, if_neg hx]
        refine List.pairwise_cons.mpr ⟨?_, ?_⟩
        · intro v hv
          have hvne : v ≠ x := fun h =>
            ((mem_dedupFirstAux _ _ _).mp hv).2 (h ▸ List.mem_cons_self x seen)
          rw [List.indexOf_cons_self, List.indexOf_cons_ne _ (Ne.symm hvne)]
          exact Nat.succ_pos _
        · refine (ih _).imp_of_mem ?_
          intro u v hu hv huv
          have hune : u ≠ x := fun h =>
            ((mem_dedupFirstAux _ _ _).mp hu).2 (h ▸ List.mem_cons_self x seen)
          have hvne : v ≠ x := fun h =>
            ((mem_dedupFirstAux _ _ _).mp hv).2 (h ▸ List.mem_cons_self x seen)
          rw [List.indexOf_cons_ne _ (Ne.symm hune), List.indexOf_cons_ne _ (Ne.symm hvne)]
          exact Nat.succ_lt_succ huv

theorem pairwise_idxOf_dedupFirst [DecidableEq α] (xs : List α) :
    (dedupFirst xs).Pairwise (fun u v => xs.indexOf u < xs.indexOf v) :=
  pairwise_idxOf_dedupFirstAux [] xs

theorem bestOf_mem [DecidableEq α] (xs : List α) (b : α) (cs : List α) :
    bestOf xs b cs = b ∨ bestOf xs b cs ∈ cs := by
  induction cs generalizing b with
  | nil => exact Or.inl rfl
  | cons c cs ih =>
      rw [bestOf]
      by_cases h : xs.count b < xs.count c
      · rw [if_pos h]
        rcases ih c with h1 | h1
        · rw [h1]
          exact Or.inr (List.mem_cons_self c cs)
        · exact Or.inr (List.mem_cons_of_mem _ h1)
      · rw [if_neg h]
        rcases ih b with h1 | h1
        · exact Or.inl h1
        · exact Or.inr (List.mem_cons_of_mem _ h1)

theorem count_base_le_bestOf [DecidableEq α] (xs : List α) (b : α) (cs : List α) :
    xs.count b ≤ xs.count (bestOf xs b cs) := by
  induction cs generalizing b with
  | nil => exact le_refl _
  | cons c cs ih =>
      rw [bestOf]
      by_cases h : xs.count b < xs.count c
      · rw [if_pos h]
        exact le_trans (le_of_lt h) (ih c)
      · rw [if_neg h]
        exact ih b

theorem count_mem_le_bestOf [DecidableEq α] (xs : List α) (b : α) (cs : List α) :
    ∀ y ∈ cs, xs.count y ≤ xs.count (bestOf xs b cs) := by
  induction cs generalizing b with
  | nil =>
      intro y hy
      exact absurd hy (List.not_mem_nil y)
  | cons c cs ih =>
      intro y hy
      rw [bestOf]
      by_cases h : xs.count b < xs.count c
      · rw [if_pos h]
        rcases List.mem_cons.mp hy with rfl | hy'
        · exact count_base_le_bestOf xs y cs
        · exact ih c y hy'
      · rw [if_neg h]
        rcases List.mem_cons.mp hy with rfl | hy'
        · exact le_trans (Nat.le_of_not_lt h) (count_base_le_bestOf xs b cs)
        · exact ih b y hy'

theorem count_le_bestOf [DecidableEq α] (xs : List α) (b : α) (cs : List α) :
    ∀ y ∈ b :: cs, xs.count y ≤ xs.count (bestOf xs b cs) := by
  intro y hy
  rcases List.mem_cons.mp hy with rfl | hy'
  · exact count_base_le_bestOf xs y cs
  · exact count_mem_le_bestOf xs b cs y hy'

theorem bestOf_tie_first [DecidableEq α] (xs : List α) (b : α) (cs : List α)
    (hpw : (b :: cs).Pairwise (fun u v => xs.indexOf u < xs.indexOf v)) :
    ∀ y ∈ b :: cs, xs.count y = xs.count (bestOf xs b cs) →
      xs.indexOf (bestOf xs b cs) ≤ xs.indexOf y := by
  induction cs generalizing b with
  | nil =>
      intro y hy _
      rw [List.mem_singleton] at hy
      subst hy
      exact le_refl _
  | cons c cs ih =>
      intro y hy hcnt
      obtain ⟨hb, hpw2⟩ := List.pairwise_cons.mp hpw
      obtain ⟨hc, hpw3⟩ := List.pairwise_cons.mp hpw2
      have hpwb : (b :: cs).Pairwise (fun u v => xs.indexOf u < xs.indexOf v) :=
        List.pairwise_cons.mpr ⟨fun v hv => hb v (List.mem_cons_of_mem _ hv), hpw3⟩
      rw [bestOf] at hcnt ⊢
      by_cases h : xs.count b < xs.count c
      · rw [if_pos h] at hcnt ⊢
        rcases List.mem_cons.mp hy with rfl | hy'
        · exfalso
          have hle : xs.count c ≤ xs.count (bestOf xs c cs) :=
            count_base_le_bestOf xs c cs
        -- y = b: its count equals the maximum, yet it is strictly below c's count
          omega
        · exact ih c hpw2 y hy' hcnt
      · rw [if_neg h] at hcnt ⊢
        rcases List.mem_cons.mp hy with rfl | hy'
        · exact ih y hpwb y (List.mem_cons_self y cs) hcnt
        · rcases List.mem_cons.mp hy' with rfl | hy''
          · -- y = c ties with the maximum; b also ties, and b comes first
            have hble : xs.count b ≤ xs.count (bestOf xs b cs) :=
              count_base_le_bestOf xs b cs
            have hbeq : xs.count b = xs.count (bestOf xs b cs) := by omega
            exact le_trans (ih b hpwb b (List.mem_cons_self b cs) hbeq)
              (le_of_lt (hb y (List.mem_cons_self y cs)))
          · exact ih b hpwb y (List.mem_cons_of_mem _ hy'') hcnt

theorem dedupFirst_cons [DecidableEq α] (x : α) (xs : List α) :
    dedupFirst (x :: xs) = x :: dedupFirstAux [x] xs := by
  rw [dedupFirst, dedupFirstAux, if_neg (List.not_mem_nil x)]

theorem modeFirst_spec [DecidableEq α] (xs : List α) (v : α)
    (h : modeFirst xs = some v) :
    v ∈ xs ∧ (∀ w ∈ xs, xs.count w ≤ xs.count v) ∧
      (∀ w ∈ xs, xs.count w = xs.count v → xs.indexOf v ≤ xs.indexOf w) := by
  rw [modeFirst] at h
  rcases hd : dedupFirst xs with _ | ⟨c, cs⟩
  · rw [hd] at h
    exact absurd h (by simp)
  · rw [hd] at h
    have hv : v = bestOf xs c cs := by
      injection h with h
      exact h.symm
    subst hv
    have hmem : bestOf xs c cs ∈ xs := by
      rcases bestOf_mem xs c cs with h1 | h1
      · rw [h1, ← mem_dedupFirst, hd]
        exact List.mem_cons_self c cs
      · rw [← mem_dedupFirst, hd]
        exact List.mem_cons_of_mem _ h1
    refine ⟨hmem, ?_, ?_⟩
    · intro w hw
      have hw' : w ∈ c :: cs := by
        rw [← hd, mem_dedupFirst]
        exact hw
      exact count_le_bestOf xs c cs w hw'
    · intro w hw hcnt
      have hw' : w ∈ c :: cs := by
        rw [← hd, mem_dedupFirst]
        exact hw
      have hpw : (c :: cs).Pairwise (fun u u' => xs.indexOf u < xs.indexOf u') := by
        rw [← hd]
        exact pairwise_idxOf_dedupFirst xs
      exact bestOf_tie_first xs c cs hpw w hw' hcnt

theorem modeFirst_mem [DecidableEq α] (xs : List α) (v : α)
    (h : modeFirst xs = some v) : v ∈ xs :=
  (modeFirst_spec xs v h).1

theorem modeFirst_isSome [DecidableEq α] (x : α) (xs : List α) :
    ∃ v, modeFirst (x :: xs) = some v := by
  rw [modeFirst, dedupFirst_cons]
  exact ⟨_, rfl⟩

theorem firstBadRow_eq_none (n : Nat) (rs : List (List String)) :
    firstBadRow n rs = none ↔ ∀ r ∈ rs, r.length = n := by
  induction rs with
  | nil => simp [firstBadRow]
  | cons r rs ih =>
      rw [firstBadRow]
      by_cases h : r.length ≠ n
      · simp only [if_pos h]
        constructor
        · intro hc
          exact absurd hc (by simp)
        · intro hall
          exact absurd (hall r (List.mem_cons_self r rs)) h
      · push_neg at h
        simp only [if_neg (by omega : ¬ r.length ≠ n), Option.map_eq_none', ih]
        constructor
        · intro hall r' hr'
          rcases List.mem_cons.mp hr' with rfl | hr''
          · exact h
          · exact hall r' hr''
        · intro hall r' hr'
          exact hall r' (List.mem_cons_of_mem _ hr')

theorem firstBadRow_spec (n : Nat) (rs : List (List String)) (i : Nat)
    (h : firstBadRow n rs = some i) :
    i < rs.length ∧ (rs.getD i []).length ≠ n ∧
      ∀ j < i, (rs.getD j []).length = n := by
  induction rs generalizing i with
  | nil => exact absurd h (by simp [firstBadRow])
  | cons r rs ih =>
      rw [firstBadRow] at h
      by_cases hr : r.length ≠ n
      · rw [if_pos hr] at h
        have hi : i = 0 := by
          injection h with h
          exact h.symm
        subst hi
        exact ⟨Nat.succ_pos _, by simpa using hr, fun j hj => absurd hj (Nat.not_lt_zero j)⟩
      · rw [if_neg hr] at h
        push_neg at hr
        rcases Option.map_eq_some'.mp h with ⟨i', hi', rfl⟩
        obtain ⟨h1, h2, h3⟩ := ih i' hi'
        refine ⟨Nat.succ_lt_succ h1, by simpa using h2, ?_⟩
        intro j hj
        cases j with
        | zero => simpa using hr
        | succ j => simpa using h3 j (Nat.lt_of_succ_lt_succ hj)

theorem firstBadRow_isSome (n : Nat) (rs : List (List String))
    (h : ∃ r ∈ rs, r.length ≠ n) : ∃ i, firstBadRow n rs = some i := by
  rcases hf : firstBadRow n rs with _ | i
  · rcases h with ⟨r, hr, hlen⟩
    exact absurd ((firstBadRow_eq_none n rs).mp hf r hr) hlen
  · exact ⟨i, rfl⟩

theorem nodup_count_one [BEq α] [LawfulBEq α] (l : List α) (hn : l.Nodup) (a : α) (h : a ∈ l) :
    l.count a = 1 := by
  induction l with
  | nil => cases h
  | cons x xs ih =>
      obtain ⟨hx, hxs⟩ := List.nodup_cons.mp hn
      rw [List.count_cons]
      rcases List.mem_cons.mp h with rfl | h'
      · rw [List.count_eq_zero_of_not_mem hx]
        simp
      · have hne : x ≠ a := by
          rintro rfl
          exact hx h'
        rw [ih hxs h']
        simp [hne]

theorem cleanTable_fst (schemas : List ColumnSchema) (t : Table) :
    (cleanTable schemas t).1 = dedupFirst (imputedRows schemas t) := rfl

theorem cleanTable_dups (schemas : List ColumnSchema) (t : Table) :
    (cleanTable schemas t).2.duplicatesRemoved
      = (imputedRows schemas t).length - (dedupFirst (imputedRows schemas t)).length := rfl

/-! ## Claim theorems -/

/-- C1: an input whose header row has n fields and that contains a data row
with a different field count makes the Table Loader fail with a
`MalformedRow` error carrying the (first) offending row's index, producing no
table, and the pipeline returns a report with status `"error"`, error kind
`MalformedRow` and no summary. -/
theorem loader_rejects_malformed (fn input headerLine : String) (ds : List String)
    (hl : csvLines input = headerLine :: ds)
    (hex : ∃ r ∈ ds, (splitLine r).length ≠ (splitLine headerLine).length) :
    ∃ i, i < ds.length ∧
      (splitLine (ds.getD i "")).length ≠ (splitLine headerLine).length ∧
      (∀ j, j < i → (splitLine (ds.getD j "")).length = (splitLine headerLine).length) ∧
      loadTable input = Except.error ⟨ParseErrorKind.MalformedRow, some i⟩ ∧
      profilePipeline fn input =
        ⟨fn, "error", none, some ⟨ParseErrorKind.MalformedRow, some i⟩⟩ := by
  have hex' : ∃ r ∈ ds.map splitLine, r.length ≠ (splitLine headerLine).length := by
    rcases hex with ⟨r, hr, hlen⟩
    exact ⟨splitLine r, List.mem_map_of_mem _ hr, hlen⟩
  obtain ⟨i, hfi⟩ := firstBadRow_isSome _ _ hex'
  obtain ⟨h1, h2, h3⟩ := firstBadRow_spec _ _ _ hfi
  rw [List.length_map] at h1
  have hne : ds.isEmpty = false := by
    cases ds
    · exact absurd h1 (by simp)
    · rfl
  have hload : loadTable input = Except.error ⟨ParseErrorKind.MalformedRow, some i⟩ := by
    simp only [loadTable, hl, hne, Bool.false_eq_true, if_false, hfi]
  have hpipe : profilePipeline fn input =
      ⟨fn, "error", none, some ⟨ParseErrorKind.MalformedRow, some i⟩⟩ := by
    simp only [profilePipeline, hload]
  refine ⟨i, h1, ?_, ?_, hload, hpipe⟩
  · rw [getD_map_of_lt splitLine ds i h1 [] ""] at h2
    exact h2
  · intro j hj
    have hj' : j < ds.length := lt_trans hj h1
    have := h3 j hj
    rw [getD_map_of_lt splitLine ds j hj' [] ""] at this
    exact this

/-- C1 witness: header `a,b` with single data row `1`. -/
theorem loader_rejects_malformed_witness :
    ∃ i, i < (["1"] : List String).length ∧
      (splitLine ((["1"] : List String).getD i "")).length ≠ (splitLine "a,b").length ∧
      (∀ j, j < i →
        (splitLine ((["1"] : List String).getD j "")).length = (splitLine "a,b").length) ∧
      loadTable "a,b\x0a1" = Except.error ⟨ParseErrorKind.MalformedRow, some i⟩ ∧
      profilePipeline "data.csv" "a,b\x0a1" =
        ⟨"data.csv", "error", none, some ⟨ParseErrorKind.MalformedRow, some i⟩⟩ :=
  loader_rejects_malformed "data.csv" "a,b\x0a1" "a,b" ["1"]
    (by decide) ⟨"1", by decide, by decide⟩

/-- C3: the Cleaner imputes first and deduplicates second; deduplication keeps
exactly the first occurrence of each distinct imputed row (the cleaned rows
are a duplicate-free subsequence of the imputed rows containing every
distinct imputed row exactly once) and records the number removed, so rows
differing only in originally-missing cells (imputed identically) are merged. -/
theorem cleaner_impute_then_dedup (schemas : List ColumnSchema) (t : Table) :
    (cleanTable schemas t).1 = dedupFirst (imputedRows schemas t) ∧
    ((cleanTable schemas t).1).Sublist (imputedRows schemas t) ∧
    ((cleanTable schemas t).1).Nodup ∧
    (∀ r, r ∈ imputedRows schemas t ↔ r ∈ (cleanTable schemas t).1) ∧
    (∀ r ∈ imputedRows schemas t, ((cleanTable schemas t).1).count r = 1) ∧
    (cleanTable schemas t).2.duplicatesRemoved
      = (imputedRows schemas t).length - ((cleanTable schemas t).1).length := by
  rw [cleanTable_fst, cleanTable_dups]
  refine ⟨rfl, sublist_dedupFirst _, nodup_dedupFirst _, ?_, ?_, rfl⟩
  · intro r
    exact (mem_dedupFirst _ r).symm
  · intro r hr
    exact nodup_count_one _ (nodup_dedupFirst _) r ((mem_dedupFirst _ r).mpr hr)

/-- C3 witness: two rows that differ only in an originally-missing cell are
merged into one occurrence after imputation and deduplication. -/
theorem cleaner_impute_then_dedup_witness :
    ((cleanTable (inferSchemas ⟨["x"], [["1"], [""], ["3"], ["1"]]⟩)
        ⟨["x"], [["1"], [""], ["3"], ["1"]]⟩).1).count [Value.num 1] = 1 :=
  (cleaner_impute_then_dedup (inferSchemas ⟨["x"], [["1"], [""], ["3"], ["1"]]⟩)
      ⟨["x"], [["1"], [""], ["3"], ["1"]]⟩).2.2.2.2.1 [Value.num 1] (by decide)

/-- C6: the cleaned table never has more rows than the original, and the
recorded duplicates-removed count plus the cleaned row count equals the
original row count. -/
theorem cleaner_row_counts (schemas : List ColumnSchema) (t : Table) :
    ((cleanTable schemas t).1).length ≤ t.rows.length ∧
      (cleanTable schemas t).2.duplicatesRemoved + ((cleanTable schemas t).1).length
        = t.rows.length := by
  have hlen : (imputedRows schemas t).length = t.rows.length := List.length_map _ _
  have hle : (dedupFirst (imputedRows schemas t)).length ≤ (imputedRows schemas t).length :=
    (sublist_dedupFirst _).length_le
  rw [cleanTable_fst, cleanTable_dups]
  constructor
  · rw [← hlen]
    exact hle
  · rw [← hlen]
    omega

/-- C6 witness: a table with one duplicate row. -/
theorem cleaner_row_counts_witness :
    ((cleanTable (inferSchemas ⟨["x"], [["1"], [""], ["3"], ["1"]]⟩)
        ⟨["x"], [["1"], [""], ["3"], ["1"]]⟩).1).length ≤ 4 ∧
      (cleanTable (inferSchemas ⟨["x"], [["1"], [""], ["3"], ["1"]]⟩)
          ⟨["x"], [["1"], [""], ["3"], ["1"]]⟩).2.duplicatesRemoved +
        ((cleanTable (inferSchemas ⟨["x"], [["1"], [""], ["3"], ["1"]]⟩)
            ⟨["x"], [["1"], [""], ["3"], ["1"]]⟩).1).length = 4 :=
  cleaner_row_counts (inferSchemas ⟨["x"], [["1"], [""], ["3"], ["1"]]⟩)
    ⟨["x"], [["1"], [""], ["3"], ["1"]]⟩

theorem columnInfo_length (schemas : List ColumnSchema) (t : Table) :
    (columnInfo schemas t).length = t.header.length := by
  rw [columnInfo, List.length_map, List.length_range]

theorem columnInfo_getD (schemas : List ColumnSchema) (t : Table) (j : Nat)
    (hj : j < t.header.length) :
    (columnInfo schemas t).getD j (ColumnKind.categorical, Value.str "")
      = (kindAt schemas j, columnReplacement (kindAt schemas j) (colCells t j)) := by
  rw [columnInfo, getD_map_range _ _ _ hj]

/-- C2: the Cleaner's imputation policy — column `j` of the imputed table is
column `j` of the raw table mapped through per-cell imputation against the
column's replacement value; a null cell becomes the replacement; the
replacement for a numerical column is the median of its non-null values (0 if
entirely null) and for any other kind the most frequent non-null value
(`"Unknown"` if entirely null); a non-null numerical cell becomes its parsed
number. -/
theorem cleaner_imputation (schemas : List ColumnSchema) (t : Table) (j : Nat)
    (hj : j < t.header.length) :
    ((imputedRows schemas t).map (fun r => r.getD j (Value.str ""))
        = (colCells t j).map
            (imputeCell (kindAt schemas j)
              (columnReplacement (kindAt schemas j) (colCells t j)))) ∧
    (∀ k repl s, isNullCell k s = true → imputeCell k repl s = repl) ∧
    (∀ repl s, isNullCell ColumnKind.numerical s = false →
        imputeCell ColumnKind.numerical repl s
          = Value.num ((parseDecimal (strTrim s)).getD 0)) ∧
    (∀ k repl s, k ≠ ColumnKind.numerical → isNullCell k s = false →
        imputeCell k repl s = Value.str s) ∧
    (∀ cells, columnReplacement ColumnKind.numerical cells
        = if (numericValues cells).isEmpty then Value.num 0
          else Value.num (medianQ (numericValues cells))) ∧
    (∀ k cells, k ≠ ColumnKind.numerical →
        columnReplacement k cells
          = Value.str
              ((modeFirst (cells.filter (fun s => ¬ isNullCell k s))).getD "Unknown") ∧
        (∀ v, modeFirst (cells.filter (fun s => ¬ isNullCell k s)) = some v →
          ∀ w ∈ cells.filter (fun s => ¬ isNullCell k s),
            (cells.filter (fun s => ¬ isNullCell k s)).count w
              ≤ (cells.filter (fun s => ¬ isNullCell k s)).count v)) := by
  refine ⟨?_, ?_, ?_, ?_, ?_, ?_⟩
  · have hf : (fun r : List String =>
        (imputeRow (columnInfo schemas t) r).getD j (Value.str ""))
        = fun r : List String =>
            imputeCell (kindAt schemas j)
              (columnReplacement (kindAt schemas j) (colCells t j)) (r.getD j "") := by
      funext r
      rw [imputeRow, getD_map_range _ _ _ (by rw [columnInfo_length]; exact hj)]
      simp only [columnInfo_getD schemas t j hj]
    rw [imputedRows, List.map_map, colCells, List.map_map]
    simp only [Function.comp_def]
    rw [hf]
    rfl
  · intro k repl s hnull
    cases k <;> rw [imputeCell, if_pos hnull] <;> simp
  · intro repl s hnull
    rw [imputeCell, if_neg (by rw [hnull]; exact Bool.false_ne_true)]
  · intro k repl s hk hnull
    cases k with
    | numerical => exact absurd rfl hk
    | categorical =>
        rw [imputeCell, if_neg (by rw [hnull]; exact Bool.false_ne_true)]
        simp
    | boolean =>
        rw [imputeCell, if_neg (by rw [hnull]; exact Bool.false_ne_true)]
        simp
    | datetime =>
        rw [imputeCell, if_neg (by rw [hnull]; exact Bool.false_ne_true)]
        simp
  · intro cells
    rfl
  · intro k cells hk
    refine ⟨?_, fun v hv w hw => (modeFirst_spec _ v hv).2.1 w hw⟩
    cases k with
    | numerical => exact absurd rfl hk
    | categorical =>
        rw [show columnReplacement ColumnKind.categorical cells
            = (match modeFirst
                  (cells.filter (fun s => ¬ isNullCell ColumnKind.categorical s)) with
               | some v => Value.str v
               | none => Value.str "Unknown") from rfl]
        rcases modeFirst (cells.filter (fun s => ¬ isNullCell ColumnKind.categorical s)) with
          _ | v <;> rfl
    | boolean =>
        rw [show columnReplacement ColumnKind.boolean cells
            = (match modeFirst
                  (cells.filter (fun s => ¬ isNullCell ColumnKind.boolean s)) with
               | some v => Value.str v
               | none => Value.str "Unknown") from rfl]
        rcases modeFirst (cells.filter (fun s => ¬ isNullCell ColumnKind.boolean s)) with
          _ | v <;> rfl
    | datetime =>
        rw [show columnReplacement ColumnKind.datetime cells
            = (match modeFirst
                  (cells.filter (fun s => ¬ isNullCell ColumnKind.datetime s)) with
               | some v => Value.str v
               | none => Value.str "Unknown") from rfl]
        rcases modeFirst (cells.filter (fun s => ¬ isNullCell ColumnKind.datetime s)) with
          _ | v <;> rfl

/-- C2 witness: the numerical column `["1","","3","","5"]` is imputed with the
median 3 of its non-null values, yielding `[1,3,3,3,5]` before deduplication. -/
theorem cleaner_imputation_witness :
    imputedRows (inferSchemas ⟨["x"], [["1"], [""], ["3"], [""], ["5"]]⟩)
        ⟨["x"], [["1"], [""], ["3"], [""], ["5"]]⟩
      = [[Value.num 1], [Value.num 3], [Value.num 3], [Value.num 3], [Value.num 5]] ∧
    ((imputedRows (inferSchemas ⟨["x"], [["1"], [""], ["3"], [""], ["5"]]⟩)
          ⟨["x"], [["1"], [""], ["3"], [""], ["5"]]⟩).map (fun r => r.getD 0 (Value.str ""))
        = (colCells ⟨["x"], [["1"], [""], ["3"], [""], ["5"]]⟩ 0).map
            (imputeCell
              (kindAt (inferSchemas ⟨["x"], [["1"], [""], ["3"], [""], ["5"]]⟩) 0)
              (columnReplacement
                (kindAt (inferSchemas ⟨["x"], [["1"], [""], ["3"], [""], ["5"]]⟩) 0)
                (colCells ⟨["x"], [["1"], [""], ["3"], [""], ["5"]]⟩ 0)))) :=
  ⟨by decide,
   (cleaner_imputation (inferSchemas ⟨["x"], [["1"], [""], ["3"], [""], ["5"]]⟩)
      ⟨["x"], [["1"], [""], ["3"], [""], ["5"]]⟩ 0 (by decide)).1⟩

/-- C4: the Schema Inferrer classifies each column by fixed precedence over
its non-empty values — numerical at a 95% parse rate (failed cells then count
as nulls), else boolean when every value is a boolean token, else datetime at
a 90% single-pattern match rate, else categorical; a column with no non-empty
values is categorical with confidence 0; and the schema list is aligned with
the header. -/
theorem schema_inference_rule :
    (∀ (t : Table) (j : Nat), j < t.header.length →
        (inferSchemas t).getD j defaultSchema
          = ⟨t.header.getD j "", (inferColumn (colCells t j)).1,
             (inferColumn (colCells t j)).2⟩) ∧
    (∀ values : List String, nonEmptyVals values = [] →
        inferColumn values = (ColumnKind.categorical, 0)) ∧
    (∀ values : List String, nonEmptyVals values ≠ [] →
        20 * countP isNumericCell (nonEmptyVals values) ≥ 19 * (nonEmptyVals values).length →
        (inferColumn values).1 = ColumnKind.numerical) ∧
    (∀ values : List String, nonEmptyVals values ≠ [] →
        ¬ 20 * countP isNumericCell (nonEmptyVals values) ≥ 19 * (nonEmptyVals values).length →
        (nonEmptyVals values).all isBoolToken = true →
        (inferColumn values).1 = ColumnKind.boolean) ∧
    (∀ values : List String, nonEmptyVals values ≠ [] →
        ¬ 20 * countP isNumericCell (nonEmptyVals values) ≥ 19 * (nonEmptyVals values).length →
        ¬ (nonEmptyVals values).all isBoolToken = true →
        10 * max (countP matchISO (nonEmptyVals values))
            (max (countP matchMDY (nonEmptyVals values)) (countP matchDMY (nonEmptyVals values)))
          ≥ 9 * (nonEmptyVals values).length →
        (inferColumn values).1 = ColumnKind.datetime) ∧
    (∀ values : List String, nonEmptyVals values ≠ [] →
        ¬ 20 * countP isNumericCell (nonEmptyVals values) ≥ 19 * (nonEmptyVals values).length →
        ¬ (nonEmptyVals values).all isBoolToken = true →
        ¬ 10 * max (countP matchISO (nonEmptyVals values))
            (max (countP matchMDY (nonEmptyVals values)) (countP matchDMY (nonEmptyVals values)))
          ≥ 9 * (nonEmptyVals values).length →
        (inferColumn values).1 = ColumnKind.categorical) ∧
    (∀ s : String, isNumericCell s = false → isNullCell ColumnKind.numerical s = true) := by
  refine ⟨?_, ?_, ?_, ?_, ?_, ?_, ?_⟩
  · intro t j hj
    rw [inferSchemas, getD_map_range _ _ _ hj]
  · intro values h
    simp [inferColumn, h]
  · intro values h hge
    have hlen : ¬ (nonEmptyVals values).length = 0 :=
      fun hy => h (List.length_eq_zero.mp hy)
    simp only [inferColumn, if_neg hlen, if_pos hge]
  · intro values h hnum hbool
    have hlen : ¬ (nonEmptyVals values).length = 0 :=
      fun hy => h (List.length_eq_zero.mp hy)
    simp only [inferColumn, if_neg hlen, if_neg hnum, if_pos hbool]
  · intro values h hnum hbool hdate
    have hlen : ¬ (nonEmptyVals values).length = 0 :=
      fun hy => h (List.length_eq_zero.mp hy)
    simp only [inferColumn, if_neg hlen, if_neg hnum, if_neg hbool, if_pos hdate]
  · intro values h hnum hbool hdate
    have hlen : ¬ (nonEmptyVals values).length = 0 :=
      fun hy => h (List.length_eq_zero.mp hy)
    simp only [inferColumn, if_neg hlen, if_neg hnum, if_neg hbool, if_neg hdate]
  · intro s h
    rcases hp : parseDecimal (strTrim s) with _ | q
    · simp [isNullCell, hp]
    · rw [isNumericCell, hp] at h
      exact absurd h (by simp)

/-- C4 witness: one concrete column per classification branch. -/
theorem schema_inference_rule_witness :
    inferColumn [] = (ColumnKind.categorical, 0) ∧
    (inferColumn ["1", "2"]).1 = ColumnKind.numerical ∧
    (inferColumn ["yes", "No"]).1 = ColumnKind.boolean ∧
    (inferColumn ["2020-01-02"]).1 = ColumnKind.datetime ∧
    (inferColumn ["hello"]).1 = ColumnKind.categorical ∧
    isNullCell ColumnKind.numerical "x" = true :=
  ⟨schema_inference_rule.2.1 [] (by decide),
   schema_inference_rule.2.2.1 ["1", "2"] (by decide) (by decide),
   schema_inference_rule.2.2.2.1 ["yes", "No"] (by decide) (by decide) (by decide),
   schema_inference_rule.2.2.2.2.1 ["2020-01-02"] (by decide) (by decide) (by decide)
     (by decide),
   schema_inference_rule.2.2.2.2.2.1 ["hello"] (by decide) (by decide) (by decide)
     (by decide),
   schema_inference_rule.2.2.2.2.2.2 "x" (by decide)⟩

theorem valueIsNull_columnReplacement (k : ColumnKind) (cells : List String) :
    valueIsNull (columnReplacement k cells) = false := by
  cases k with
  | numerical =>
      rw [show columnReplacement ColumnKind.numerical cells
          = (if (numericValues cells).isEmpty then Value.num 0
             else Value.num (medianQ (numericValues cells))) from rfl]
      by_cases he : (numericValues cells).isEmpty
      · rw [if_pos he]
        rfl
      · rw [if_neg he]
        rfl
  | categorical =>
      rw [show columnReplacement ColumnKind.categorical cells
          = (match modeFirst
                (cells.filter (fun s => ¬ isNullCell ColumnKind.categorical s)) with
             | some v => Value.str v
             | none => Value.str "Unknown") from rfl]
      rcases hm : modeFirst (cells.filter (fun s => ¬ isNullCell ColumnKind.categorical s))
        with _ | v
      · rfl
      · have hv := modeFirst_mem _ v hm
        have hnn := (List.mem_filter.mp hv).2
        simp only [isNullCell, decide_eq_true_eq] at hnn ⊢
        simp only [valueIsNull]
        simpa using hnn
  | boolean =>
      rw [show columnReplacement ColumnKind.boolean cells
          = (match modeFirst
                (cells.filter (fun s => ¬ isNullCell ColumnKind.boolean s)) with
             | some v => Value.str v
             | none => Value.str "Unknown") from rfl]
      rcases hm : modeFirst (cells.filter (fun s => ¬ isNullCell ColumnKind.boolean s))
        with _ | v
      · rfl
      · have hv := modeFirst_mem _ v hm
        have hnn := (List.mem_filter.mp hv).2
        simp only [isNullCell, decide_eq_true_eq] at hnn ⊢
        simp only [valueIsNull]
        simpa using hnn
  | datetime =>
      rw [show columnReplacement ColumnKind.datetime cells
          = (match modeFirst
                (cells.filter (fun s => ¬ isNullCell ColumnKind.datetime s)) with
             | some v => Value.str v
             | none => Value.str "Unknown") from rfl]
      rcases hm : modeFirst (cells.filter (fun s => ¬ isNullCell ColumnKind.datetime s))
        with _ | v
      · rfl
      · have hv := modeFirst_mem _ v hm
        have hnn := (List.mem_filter.mp hv).2
        simp only [isNullCell, decide_eq_true_eq] at hnn ⊢
        simp only [valueIsNull]
        simpa using hnn

theorem valueIsNull_imputeCell (k : ColumnKind) (cells : List String) (s : String) :
    valueIsNull (imputeCell k (columnReplacement k cells) s) = false := by
  cases k with
  | numerical =>
      rw [show imputeCell ColumnKind.numerical (columnReplacement ColumnKind.numerical cells) s
          = (if isNullCell ColumnKind.numerical s
             then columnReplacement ColumnKind.numerical cells
             else Value.num ((parseDecimal (strTrim s)).getD 0)) from rfl]
      by_cases hn : isNullCell ColumnKind.numerical s = true
      · rw [if_pos hn]
        exact valueIsNull_columnReplacement _ _
      · rw [if_neg hn]
        rfl
  | categorical =>
      rw [show imputeCell ColumnKind.categorical (columnReplacement ColumnKind.categorical cells) s
          = (if isNullCell ColumnKind.categorical s
             then columnReplacement ColumnKind.categorical cells
             else Value.str s) from rfl]
      by_cases hn : isNullCell ColumnKind.categorical s = true
      · rw [if_pos hn]
        exact valueIsNull_columnReplacement _ _
      · rw [if_neg hn]
        simp only [isNullCell, decide_eq_true_eq] at hn
        simp only [valueIsNull]
        simpa using hn
  | boolean =>
      rw [show imputeCell ColumnKind.boolean (columnReplacement ColumnKind.boolean cells) s
          = (if isNullCell ColumnKind.boolean s
             then columnReplacement ColumnKind.boolean cells
             else Value.str s) from rfl]
      by_cases hn : isNullCell ColumnKind.boolean s = true
      · rw [if_pos hn]
        exact valueIsNull_columnReplacement _ _
      · rw [if_neg hn]
        simp only [isNullCell, decide_eq_true_eq] at hn
        simp only [valueIsNull]
        simpa using hn
  | datetime =>
      rw [show imputeCell ColumnKind.datetime (columnReplacement ColumnKind.datetime cells) s
          = (if isNullCell ColumnKind.datetime s
             then columnReplacement ColumnKind.datetime cells
             else Value.str s) from rfl]
      by_cases hn : isNullCell ColumnKind.datetime s = true
      · rw [if_pos hn]
        exact valueIsNull_columnReplacement _ _
      · rw [if_neg hn]
        simp only [isNullCell, decide_eq_true_eq] at hn
        simp only [valueIsNull]
        simpa using hn

/-- C5: after the Cleaner runs, no cell of the cleaned table satisfies the
null predicate, and the Cleaner is total (it produces an output on every
table, so it cannot fail on a well-formed one). -/
theorem cleaner_null_free (schemas : List ColumnSchema) (t : Table) :
    (∀ r ∈ (cleanTable schemas t).1, ∀ v ∈ r, valueIsNull v = false) ∧
    (∃ cleaned rep, cleanTable schemas t = (cleaned, rep)) := by
  constructor
  · intro r hr v hv
    rw [cleanTable_fst] at hr
    have hr' : r ∈ imputedRows schemas t := (mem_dedupFirst _ r).mp hr
    rw [imputedRows] at hr'
    rcases List.mem_map.mp hr' with ⟨row, hrow, rfl⟩
    rw [imputeRow] at hv
    rcases List.mem_map.mp hv with ⟨j, hjmem, rfl⟩
    have hj : j < t.header.length := by
      have hlt := List.mem_range.mp hjmem
      rwa [columnInfo_length] at hlt
    simp only [columnInfo_getD schemas t j hj]
    exact valueIsNull_imputeCell _ _ _
  · exact ⟨_, _, rfl⟩

/-- C5 witness: the imputed cell 3 of the cleaned one-column table is not null. -/
theorem cleaner_null_free_witness :
    valueIsNull (Value.num 3) = false :=
  (cleaner_null_free (inferSchemas ⟨["x"], [["1"], [""], ["3"], [""], ["5"]]⟩)
      ⟨["x"], [["1"], [""], ["3"], [""], ["5"]]⟩).1
    [Value.num 3] (by decide) (Value.num 3) (by decide)

theorem count_kind_partition (schemas : List ColumnSchema) (l : List Nat)
    (f : Nat → String) (s : String) :
    ((l.filter (fun j => kindAt schemas j ≠ ColumnKind.numerical)).map f).count s
      + ((l.filter (fun j => kindAt schemas j = ColumnKind.numerical)).map f).count s
      = (l.map f).count s := by
  induction l with
  | nil => rfl
  | cons j l ih =>
      by_cases hp : kindAt schemas j = ColumnKind.numerical
      · have h1 : (j :: l).filter (fun j => kindAt schemas j ≠ ColumnKind.numerical)
            = l.filter (fun j => kindAt schemas j ≠ ColumnKind.numerical) := by
          simp [List.filter_cons, hp]
        have h2 : (j :: l).filter (fun j => kindAt schemas j = ColumnKind.numerical)
            = j :: l.filter (fun j => kindAt schemas j = ColumnKind.numerical) := by
          simp [List.filter_cons, hp]
        rw [h1, h2, List.map_cons, List.map_cons, List.count_cons, List.count_cons]
        omega
      · have h1 : (j :: l).filter (fun j => kindAt schemas j ≠ ColumnKind.numerical)
            = j :: l.filter (fun j => kindAt schemas j ≠ ColumnKind.numerical) := by
          simp [List.filter_cons, hp]
        have h2 : (j :: l).filter (fun j => kindAt schemas j = ColumnKind.numerical)
            = l.filter (fun j => kindAt schemas j = ColumnKind.numerical) := by
          simp [List.filter_cons, hp]
        rw [h1, h2, List.map_cons, List.map_cons, List.count_cons, List.count_cons]
        omega

theorem summarize_cat_names (schemas : List ColumnSchema) (header : List String)
    (cleaned : List (List Value)) (nullCounts : List Nat) :
    (summarize schemas header cleaned nullCounts).categoricalColumns.map Prod.fst
      = ((List.range header.length).filter
          (fun j => kindAt schemas j ≠ ColumnKind.numerical)).map
            (fun j => header.getD j "") := by
  simp only [summarize, List.map_map]
  rfl

theorem summarize_num_names (schemas : List ColumnSchema) (header : List String)
    (cleaned : List (List Value)) (nullCounts : List Nat) :
    (summarize schemas header cleaned nullCounts).numericalColumns.map Prod.fst
      = ((List.range header.length).filter
          (fun j => kindAt schemas j = ColumnKind.numerical)).map
            (fun j => header.getD j "") := by
  simp only [summarize, List.map_map]
  rfl

/-- C8: on every successful run each header column lands in exactly one of the
two summary groups — occurrences of a name across the two groups add up to its
occurrences in the header — with numerical columns in the
`"Numerical Columns"` group and every other kind (categorical, boolean,
datetime) in the `"Categorical Columns"` group. -/
theorem summary_coverage (fn input : String) (t : Table)
    (h : loadTable input = Except.ok t) :
    (profilePipeline fn input).status = "success" ∧
    ∃ g, (profilePipeline fn input).summary = some g ∧
      (∀ s : String,
        (g.categoricalColumns.map Prod.fst).count s
          + (g.numericalColumns.map Prod.fst).count s = t.header.count s) ∧
      (∀ j, j < t.header.length →
        (kindAt (inferSchemas t) j = ColumnKind.numerical →
            t.header.getD j "" ∈ g.numericalColumns.map Prod.fst) ∧
        (kindAt (inferSchemas t) j ≠ ColumnKind.numerical →
            t.header.getD j "" ∈ g.categoricalColumns.map Prod.fst)) := by
  have hpipe : profilePipeline fn input
      = ⟨fn, "success",
         some (summarize (inferSchemas t) t.header (cleanTable (inferSchemas t) t).1
            (cleanTable (inferSchemas t) t).2.nullsImputed), none⟩ := by
    simp only [profilePipeline, h]
  refine ⟨by rw [hpipe], _, by rw [hpipe], ?_, ?_⟩
  · intro s
    rw [summarize_cat_names, summarize_num_names, count_kind_partition,
      map_getD_range]
  · intro j hj
    constructor
    · intro hk
      rw [summarize_num_names]
      refine List.mem_map_of_mem _ (List.mem_filter.mpr ⟨List.mem_range.mpr hj, ?_⟩)
      simp [hk]
    · intro hk
      rw [summarize_cat_names]
      refine List.mem_map_of_mem _ (List.mem_filter.mpr ⟨List.mem_range.mpr hj, ?_⟩)
      simp [hk]

/-- C8 witness: a two-column file with one numerical and one categorical
column. -/
theorem summary_coverage_witness :
    (profilePipeline "r.csv" "a,b\x0a1,x").status = "success" ∧
    ∃ g, (profilePipeline "r.csv" "a,b\x0a1,x").summary = some g ∧
      (∀ s : String,
        (g.categoricalColumns.map Prod.fst).count s
          + (g.numericalColumns.map Prod.fst).count s
          = (Table.mk ["a", "b"] [["1", "x"]]).header.count s) ∧
      (∀ j, j < (Table.mk ["a", "b"] [["1", "x"]]).header.length →
        (kindAt (inferSchemas (Table.mk ["a", "b"] [["1", "x"]])) j = ColumnKind.numerical →
            (Table.mk ["a", "b"] [["1", "x"]]).header.getD j ""
              ∈ g.numericalColumns.map Prod.fst) ∧
        (kindAt (inferSchemas (Table.mk ["a", "b"] [["1", "x"]])) j ≠ ColumnKind.numerical →
            (Table.mk ["a", "b"] [["1", "x"]]).header.getD j ""
              ∈ g.categoricalColumns.map Prod.fst)) :=
  summary_coverage "r.csv" "a,b\x0a1,x" (Table.mk ["a", "b"] [["1", "x"]]) (by decide)

/-- C9: the pipeline is a pure function — identical filename and input bytes
give identical reports — and the reported most frequent value of a
categorical column is a value of maximal count whose first occurrence is
earliest among tied values (first-encountered tie-breaking); the categorical
summary's top value is exactly the first-encountered mode. -/
theorem pipeline_deterministic :
    (∀ fn1 fn2 in1 in2 : String, fn1 = fn2 → in1 = in2 →
        profilePipeline fn1 in1 = profilePipeline fn2 in2) ∧
    (∀ (vs : List Value) (v : Value), modeFirst vs = some v →
        v ∈ vs ∧ (∀ w ∈ vs, vs.count w ≤ vs.count v) ∧
        (∀ w ∈ vs, vs.count w = vs.count v → vs.indexOf v ≤ vs.indexOf w)) ∧
    (∀ (nc : Nat) (vs : List Value),
        (catSummaryOf nc vs).topValue = (modeFirst vs).getD (Value.str "")) := by
  refine ⟨?_, ?_, ?_⟩
  · rintro fn1 fn2 in1 in2 rfl rfl
    rfl
  · exact fun vs v h => modeFirst_spec vs v h
  · intro nc vs
    rfl

/-- C9 witness: a tie between `"b"` (first encountered) and `"a"` resolves to
`"b"`. -/
theorem pipeline_deterministic_witness :
    profilePipeline "a.csv" "a\x0a1" = profilePipeline "a.csv" "a\x0a1" ∧
    List.indexOf (Value.str "b")
        [Value.str "b", Value.str "a", Value.str "a", Value.str "b"]
      ≤ List.indexOf (Value.str "a")
          [Value.str "b", Value.str "a", Value.str "a", Value.str "b"] :=
  ⟨pipeline_deterministic.1 "a.csv" "a.csv" "a\x0a1" "a\x0a1" rfl rfl,
   (pipeline_deterministic.2.1
      [Value.str "b", Value.str "a", Value.str "a", Value.str "b"]
      (Value.str "b") (by decide)).2.2 (Value.str "a") (by decide) (by decide)⟩

/-- C10: `ScrollableCard` renders the heading `"File uploaded successfully"`
for every non-null report object — including one whose status is `"error"`,
since no branch inspects the status — and renders exactly the fallback text
`"No summary available yet."` precisely when its data argument is
null/undefined. -/
theorem scrollable_card_render :
    (∀ r : JsReport, "File uploaded successfully" ∈ scrollableCard (some r)) ∧
    (∀ d : Option JsReport,
        scrollableCard d = ["No summary available yet."] ↔ d = none) := by
  constructor
  · intro r
    exact List.mem_append_left _ (List.mem_cons_self _ _)
  · intro d
    cases d with
    | none => simp [scrollableCard]
    | some r =>
        simp only [scrollableCard]
        refine ⟨fun hEq => ?_, fun hEq => by cases hEq⟩
        have hlen := congrArg List.length hEq
        rw [List.length_append] at hlen
        simp only [List.length_cons, List.length_nil] at hlen
        exact absurd hlen (by omega)

/-- C10 witness: a report with status `"error"` still renders the success
heading. -/
theorem scrollable_card_render_witness :
    "File uploaded successfully" ∈ scrollableCard (some ⟨"f.csv", "error", none⟩) :=
  scrollable_card_render.1 ⟨"f.csv", "error", none⟩

theorem insertSorted_length (x : ℚ) (l : List ℚ) :
    (insertSorted x l).length = l.length + 1 := by
  induction l with
  | nil => rfl
  | cons y ys ih =>
      rw [insertSorted]
      by_cases h : x ≤ y
      · rw [if_pos h]
        rfl
      · rw [if_neg h, List.length_cons, ih]
        rfl

theorem sortQ_length (xs : List ℚ) : (sortQ xs).length = xs.length := by
  induction xs with
  | nil => rfl
  | cons x l ih =>
      rw [sortQ, List.foldr_cons, insertSorted_length]
      rw [sortQ] at ih
      rw [ih]
      rfl

/-- C7: the Summarizer's numerical summary carries the mean, the square of
the unbiased N−1 sample standard deviation (0 when N = 1), the min, max, and
percentiles computed by linear interpolation between the two nearest ranks
of the sorted values; for `[1,2,3,4,5]` it reports mean 3, min 1, max 5,
median 3, and a standard deviation √(5/2) lying strictly between 1.581 and
1.5812 (≈ 1.5811). -/
theorem summarizer_numeric_stats (xs : List ℚ) :
    (∀ nc : Nat,
        (numSummaryOf nc xs).stdSq = sampleVarQ xs ∧
        (numSummaryOf nc xs).mean = meanQ xs ∧
        (numSummaryOf nc xs).median = percentileQ xs (1 / 2) ∧
        (numSummaryOf nc xs).p25 = percentileQ xs (1 / 4) ∧
        (numSummaryOf nc xs).p75 = percentileQ xs (3 / 4) ∧
        (numSummaryOf nc xs).minVal = minQ xs ∧
        (numSummaryOf nc xs).maxVal = maxQ xs) ∧
    (xs.length = 1 → sampleVarQ xs = 0) ∧
    (2 ≤ xs.length →
        sampleVarQ xs
          = ((xs.map (fun x => (x - meanQ xs) ^ 2)).sum) / ((xs.length : ℚ) - 1)) ∧
    ((sortQ xs).length = xs.length) ∧
    (∀ p : ℚ, sortQ xs ≠ [] →
        percentileQ xs p
          = (sortQ xs).getD (Int.floor (p * (((sortQ xs).length : ℚ) - 1))).toNat 0
            + (p * (((sortQ xs).length : ℚ) - 1)
                - ((Int.floor (p * (((sortQ xs).length : ℚ) - 1))).toNat : ℚ))
              * ((sortQ xs).getD (Int.ceil (p * (((sortQ xs).length : ℚ) - 1))).toNat 0
                 - (sortQ xs).getD (Int.floor (p * (((sortQ xs).length : ℚ) - 1))).toNat 0)) ∧
    ((numSummaryOf 0 [1, 2, 3, 4, 5]).mean = 3 ∧
     (numSummaryOf 0 [1, 2, 3, 4, 5]).stdSq = 5 / 2 ∧
     (numSummaryOf 0 [1, 2, 3, 4, 5]).minVal = 1 ∧
     (numSummaryOf 0 [1, 2, 3, 4, 5]).maxVal = 5 ∧
     (numSummaryOf 0 [1, 2, 3, 4, 5]).median = 3 ∧
     (1.581 : ℝ) < Real.sqrt (((numSummaryOf 0 [1, 2, 3, 4, 5]).stdSq : ℚ)) ∧
     Real.sqrt (((numSummaryOf 0 [1, 2, 3, 4, 5]).stdSq : ℚ)) < (1.5812 : ℝ)) := by
  have hsort : sortQ [(1 : ℚ), 2, 3, 4, 5] = [1, 2, 3, 4, 5] := by
    norm_num [sortQ, insertSorted]
  have hvar : sampleVarQ [(1 : ℚ), 2, 3, 4, 5] = 5 / 2 := by
    rw [sampleVarQ, if_neg (by norm_num)]
    norm_num [meanQ]
  have hmed : percentileQ [(1 : ℚ), 2, 3, 4, 5] (1 / 2) = 3 := by
    simp only [percentileQ, hsort]
    norm_num
    decide
  refine ⟨?_, ?_, ?_, sortQ_length xs, ?_, ?_⟩
  · intro nc
    exact ⟨rfl, rfl, rfl, rfl, rfl, rfl, rfl⟩
  · intro h
    rw [sampleVarQ, if_pos (by omega)]
  · intro h
    rw [sampleVarQ, if_neg (by omega)]
  · intro p hne
    have hlen0 : ¬ (sortQ xs).length = 0 := fun hy => hne (List.length_eq_zero.mp hy)
    simp only [percentileQ]
    rw [if_neg hlen0]
  · have hstd : (numSummaryOf 0 [(1 : ℚ), 2, 3, 4, 5]).stdSq = 5 / 2 := hvar
    refine ⟨by norm_num [numSummaryOf, meanQ], hvar, ?_, ?_, hmed, ?_, ?_⟩
    · norm_num [numSummaryOf, minQ]
    · norm_num [numSummaryOf, maxQ]
    · rw [hstd]
      rw [show (((5 / 2 : ℚ) : ℝ)) = (5 / 2 : ℝ) by norm_num]
      rw [show (1.581 : ℝ) = ((1581 : ℝ) / 1000) by norm_num]
      rw [Real.lt_sqrt (by norm_num)]
      norm_num
    · rw [hstd]
      rw [show (((5 / 2 : ℚ) : ℝ)) = (5 / 2 : ℝ) by norm_num]
      rw [Real.sqrt_lt' (by norm_num)]
      norm_num

/-- C7 witness: the summary's variance field is the N−1 sample variance, and
a single-value column reports standard deviation 0. -/
theorem summarizer_numeric_stats_witness :
    (numSummaryOf 0 [(1 : ℚ)]).stdSq = sampleVarQ [(1 : ℚ)] ∧
    sampleVarQ [(1 : ℚ)] = 0 :=
  ⟨((summarizer_numeric_stats [(1 : ℚ)]).1 0).1,
   (summarizer_numeric_stats [(1 : ℚ)]).2.1 rfl⟩
